import Mathlib

/-!
Verification of the in-memory symbol search / cross-reference index
(`llm_automation_server.py`) and the keyword-path builder
(`llm_chat_backend.py`).

The Python code is shallowly embedded: every relevant function is
translated into an executable Lean definition over an explicit data
model.  Python strings become `String`, manipulated through char-list
primitives below so that everything reduces in the kernel; the compiled
case-insensitive regex of `broad_search` is abstracted as an arbitrary
test function `String → Bool`; Python sets are modelled as lists (the
code only ever uses them for membership and `any`-containment, which
are insensitive to order and duplication); the JSON documents read at
startup are modelled by the inductive `JVal`.
-/

/-! ## String primitives (Python semantics, char-list based) -/

/-- Drop the longest suffix of `cs` whose characters satisfy `p`. -/
def dropEndWhile (p : Char → Bool) (cs : List Char) : List Char :=
  (cs.reverse.dropWhile p).reverse

/-- Python `str.strip()`: remove leading and trailing whitespace. -/
def pyStrip (s : String) : String :=
  ⟨dropEndWhile Char.isWhitespace (s.data.dropWhile Char.isWhitespace)⟩

/-- Python `str.strip('"')`: remove every leading and trailing
double-quote character (not just one enclosing layer). -/
def pyStripQuotes (s : String) : String :=
  ⟨dropEndWhile (fun c => c == '"') (s.data.dropWhile (fun c => c == '"'))⟩

/-- Python `str.lower()` (ASCII letters; the corpora under study are
ASCII identifiers). -/
def pyLower (s : String) : String :=
  ⟨s.data.map Char.toLower⟩

/-- Contiguous-sublist test on char lists. -/
def isSubList (needle hay : List Char) : Bool :=
  match hay with
  | [] => needle.isEmpty
  | _ :: rest => needle.isPrefixOf hay || isSubList needle rest

/-- Python `needle in hay` substring containment. -/
def strContains (hay needle : String) : Bool :=
  isSubList needle.data hay.data

/-- Python `s.startswith(pre)`. -/
def strStarts (s pre : String) : Bool :=
  pre.data.isPrefixOf s.data

/-- Python `len(s)` (code points). -/
def strLen (s : String) : Nat :=
  s.data.length

/-- Python `s[n:]` slicing from index `n`. -/
def strDrop (s : String) (n : Nat) : String :=
  ⟨s.data.drop n⟩

/-- Python `s.lstrip(set)`: drop leading characters belonging to `set`. -/
def lstripSet (set : String) (s : String) : String :=
  ⟨s.data.dropWhile (fun c => set.data.contains c)⟩

/-- Python `" ".join(parts)`. -/
def joinSp (parts : List String) : String :=
  match parts with
  | [] => ""
  | [x] => x
  | x :: rest => x ++ " " ++ joinSp rest

/-- The identifier normalization `identifier.strip().strip('"')` used by
`clear_lookup` and `find_type_references`. -/
def pyIdent (s : String) : String :=
  pyStripQuotes (pyStrip s)

/-! ## Data model (the "Corpus": modules / types / members)

Field values default to `""`: the Python code reads every field as
`(d.get(key) or "")`, so a missing or null field is indistinguishable
from the empty string at every use site. -/

structure Member where
  Name : String := ""
  FullName : String := ""
  Signature : String := ""
  MemberType : String := ""
deriving DecidableEq

structure PType where
  Name : String := ""
  FullName : String := ""
  BaseType : String := ""
  SourceFilePath : String := ""
  Fields : List Member := []
  Methods : List Member := []
  Properties : List Member := []
  Events : List Member := []
deriving DecidableEq

structure PModule where
  Name : String := ""
  AssemblyFullName : String := ""
  AssemblyPath : String := ""
  ModuleFilePath : String := ""
  FileName : String := ""
  Types : List PType := []
deriving DecidableEq

structure Project where
  Modules : List PModule := []
deriving DecidableEq

/-- `_iter_types()`: all `(module, type)` pairs in module-then-type
declaration order.  (In `broad_search` the Python code re-runs
`_iter_types()` inside the module loop and filters by object identity
`mod_obj is not mod`; since the corpus is produced by `json.loads`,
module dicts are pairwise distinct objects and that filter selects
exactly the current module's own types, which is what we embed.) -/
def iterTypes (proj : Project) : List (PModule × PType) :=
  proj.Modules.flatMap (fun mod => mod.Types.map (fun t => (mod, t)))

/-- `_iter_members(t)`: fields, methods, properties, events, in that
role order, declaration order within each role.  (The Python
`isinstance(m, dict)` filter is performed at decode time, see `decodeType`.) -/
def iterMembers (t : PType) : List Member :=
  t.Fields ++ t.Methods ++ t.Properties ++ t.Events

/-- First non-empty of assembly path, module file path, file name
(`broad_search`, `clear_lookup`, `find_type_references` all compute this). -/
def moduleAssemblyPath (mod : PModule) : String :=
  if pyStrip mod.AssemblyPath ≠ "" then pyStrip mod.AssemblyPath
  else if pyStrip mod.ModuleFilePath ≠ "" then pyStrip mod.ModuleFilePath
  else pyStrip mod.FileName

/-! ## JSON documents and the startup load (`read_initial_project_from_stdin`) -/

inductive JVal where
  | jnull
  | jbool (b : Bool)
  | jnum (n : Int)
  | jstr (s : String)
  | jarr (elems : List JVal)
  | jobj (fields : List (String × JVal))

/-- Python dict lookup on a parsed JSON object (later duplicate keys win,
as in `json.loads`). -/
def jlookup (fields : List (String × JVal)) (key : String) : Option JVal :=
  (fields.reverse.find? (fun kv => kv.1 == key)).map (fun kv => kv.2)

/-- Read a string-valued field: `(d.get(key) or "")`. -/
def getStr (fields : List (String × JVal)) (key : String) : String :=
  match jlookup fields key with
  | some (JVal.jstr s) => s
  | _ => ""

/-- Read an array-valued field: `(d.get(key) or [])`. -/
def getArr (fields : List (String × JVal)) (key : String) : List JVal :=
  match jlookup fields key with
  | some (JVal.jarr xs) => xs
  | _ => []

/-- Decode one member; non-dict entries are skipped exactly as the
`isinstance(m, dict)` filter in `_iter_members` does. -/
def decodeMember (v : JVal) : Option Member :=
  match v with
  | JVal.jobj f =>
      some { Name := getStr f "Name", FullName := getStr f "FullName",
             Signature := getStr f "Signature", MemberType := getStr f "MemberType" }
  | _ => none

/-- Decode one type (non-dict entries skipped). -/
def decodeType (v : JVal) : Option PType :=
  match v with
  | JVal.jobj f =>
      some { Name := getStr f "Name", FullName := getStr f "FullName",
             BaseType := getStr f "BaseType", SourceFilePath := getStr f "SourceFilePath",
             Fields := (getArr f "Fields").filterMap decodeMember,
             Methods := (getArr f "Methods").filterMap decodeMember,
             Properties := (getArr f "Properties").filterMap decodeMember,
             Events := (getArr f "Events").filterMap decodeMember }
  | _ => none

/-- Decode one module (non-dict entries skipped). -/
def decodeModule (v : JVal) : Option PModule :=
  match v with
  | JVal.jobj f =>
      some { Name := getStr f "Name", AssemblyFullName := getStr f "AssemblyFullName",
             AssemblyPath := getStr f "AssemblyPath", ModuleFilePath := getStr f "ModuleFilePath",
             FileName := getStr f "FileName",
             Types := (getArr f "Types").filterMap decodeType }
  | _ => none

/-- Lines 76-82 of `llm_automation_server.py`: accept `{Modules: ...}`
directly, unwrap `{Project: {...}}`, and degrade any other shape to the
explicitly empty project. -/
def read_initial_project (doc : JVal) : JVal :=
  match doc with
  | JVal.jobj fields =>
      if (jlookup fields "Modules").isSome then JVal.jobj fields
      else
        match jlookup fields "Project" with
        | some (JVal.jobj pf) => JVal.jobj pf
        | _ => JVal.jobj [("Modules", JVal.jarr [])]
  | _ => JVal.jobj [("Modules", JVal.jarr [])]

/-- The typed corpus obtained from a loaded document
(`PROJECT.get("Modules") or []` plus per-field reads). -/
def decodeProject (v : JVal) : Project :=
  match v with
  | JVal.jobj f => { Modules := (getArr f "Modules").filterMap decodeModule }
  | _ => { Modules := [] }

/-- Load a startup document into the typed corpus. -/
def corpusOfDoc (doc : JVal) : Project :=
  decodeProject (read_initial_project doc)

/-! ## Pattern Matcher (`broad_search`, lines 103-177) -/

/-- Line 109 (and line 251): `max(1, min(max_results or 500, 500))`.
A Python `0` is falsy, so `max_results or 500` replaces `0` by `500`. -/
def effectiveMaxResults (m : Int) : Int :=
  max 1 (min (if m = 0 then 500 else m) 500)

structure SearchHit where
  kind : String
  name : String
  fullName : String
  moduleName : String
  assemblyPath : String
  signature : String
deriving DecidableEq

/-- The result-accumulation loop shared by `broad_search` and
`find_type_references`: each candidate that produced a hit is appended,
and the scan returns the instant the count reaches `k`
(`if len(results) >= max_results: return results` / `break`). -/
def emitCapped {α : Type} (k : Nat) (acc : List α) : List (Option α) → List α
  | [] => acc
  | none :: rest => emitCapped k acc rest
  | some h :: rest =>
      let acc2 := acc ++ [h]
      if k ≤ acc2.length then acc2 else emitCapped k acc2 rest

/-- Module-level probe, lines 122-134: test the stripped module name and,
if non-empty, the assembly full name; `fullName` falls back to the module
name when the assembly full name is empty. -/
def moduleCandidate (test : String → Bool) (mod : PModule) : Option SearchHit :=
  let modName := pyStrip mod.Name
  let assemblyFull := pyStrip mod.AssemblyFullName
  if test modName = true ∨ (assemblyFull ≠ "" ∧ test assemblyFull = true) then
    some { kind := "module", name := modName,
           fullName := if assemblyFull ≠ "" then assemblyFull else modName,
           moduleName := modName, assemblyPath := moduleAssemblyPath mod,
           signature := "" }
  else none

/-- Type-level probe, lines 140-155. -/
def typeCandidate (test : String → Bool) (mod : PModule) (t : PType) : Option SearchHit :=
  let tName := pyStrip t.Name
  let tFull := pyStrip t.FullName
  if test tFull = true ∨ (tName ≠ "" ∧ test tName = true) then
    some { kind := "type", name := tName,
           fullName := if tFull ≠ "" then tFull else tName,
           moduleName := pyStrip mod.Name, assemblyPath := moduleAssemblyPath mod,
           signature := "" }
  else none

/-- Member-level probe, lines 157-174. -/
def memberCandidate (test : String → Bool) (mod : PModule) (m : Member) : Option SearchHit :=
  let mName := pyStrip m.Name
  let mFull := pyStrip m.FullName
  let sig := pyStrip m.Signature
  if test mFull = true ∨ (mName ≠ "" ∧ test mName = true) ∨ (sig ≠ "" ∧ test sig = true) then
    some { kind := "member", name := mName,
           fullName := if mFull ≠ "" then mFull else mName,
           moduleName := pyStrip mod.Name, assemblyPath := moduleAssemblyPath mod,
           signature := sig }
  else none

/-- The full scan order of `broad_search`: for each module, the module
probe, then for each of its types the type probe followed by the
member probes (fields, methods, properties, events). -/
def broadCandidates (test : String → Bool) (proj : Project) : List (Option SearchHit) :=
  proj.Modules.flatMap (fun mod =>
    moduleCandidate test mod ::
      mod.Types.flatMap (fun t =>
        typeCandidate test mod t :: (iterMembers t).map (memberCandidate test mod)))

/-- `broad_search(pattern, max_results)`, with the compiled
case-insensitive regex abstracted as `test`. -/
def broad_search (test : String → Bool) (proj : Project) (maxResults : Int) : List SearchHit :=
  emitCapped (effectiveMaxResults maxResults).toNat [] (broadCandidates test proj)

/-- What an exhaustive (uncapped) scan in the same order would yield. -/
def broadSearchAll (test : String → Bool) (proj : Project) : List SearchHit :=
  (broadCandidates test proj).filterMap id

/-! ## Identifier Resolver (`clear_lookup`, lines 180-234) -/

structure Candidate where
  moduleName : String
  assemblyPath : String
  typeFullName : String
  sourcePath : String
deriving DecidableEq

/-- The candidate record appended to `exact_matches` / `partial_matches`. -/
def mkCandidate (mod : PModule) (t : PType) : Candidate :=
  { moduleName := pyStrip mod.Name, assemblyPath := moduleAssemblyPath mod,
    typeFullName := pyStrip t.FullName, sourcePath := pyStrip t.SourceFilePath }

/-- The result value of `clear_lookup`, one constructor per returned JSON
shape.  Note the `ok` shape (lines 225-231) carries the keys
`identifier`, `assemblyPath`, `typeFullName` and `sourcePath` only: the
module name is logged but not part of the response. -/
inductive Resolution where
  | bad_request (error : String)
  | not_found (identifier : String)
  | ok (identifier : String) (assemblyPath : String) (typeFullName : String) (sourcePath : String)
  | ambiguous (identifier : String) (candidates : List Candidate)
deriving DecidableEq

/-- The `status` discriminator of the JSON response. -/
def statusOf (r : Resolution) : String :=
  match r with
  | Resolution.bad_request _ => "bad_request"
  | Resolution.not_found _ => "not_found"
  | Resolution.ok _ _ _ _ => "ok"
  | Resolution.ambiguous _ _ => "ambiguous"

/-- The single loop of `clear_lookup` (lines 188-214), accumulating the
exact and partial match lists in iteration order: exact when the
stripped full name equals the identifier, else partial when the full
name is non-empty and case-insensitively contains the identifier. -/
def collectMatches (ident : String) : List (PModule × PType) → List Candidate × List Candidate
  | [] => ([], [])
  | (mod, t) :: rest =>
      let (es, ps) := collectMatches ident rest
      let tFull := pyStrip t.FullName
      if tFull = ident then (mkCandidate mod t :: es, ps)
      else if tFull ≠ "" ∧ strContains (pyLower tFull) (pyLower ident) = true then
        (es, mkCandidate mod t :: ps)
      else (es, ps)

/-- `clear_lookup(identifier)`. -/
def clear_lookup (proj : Project) (identifier : String) : Resolution :=
  let ident := pyIdent identifier
  if ident = "" then Resolution.bad_request "empty identifier"
  else
    let (es, ps) := collectMatches ident (iterTypes proj)
    let found := if es = [] then ps else es
    match found with
    | [] => Resolution.not_found ident
    | [m] => Resolution.ok ident m.assemblyPath m.typeFullName m.sourcePath
    | ms => Resolution.ambiguous ident ms

/-- The exact-match set described by the spec, computed on its own:
types whose stripped full name equals the identifier. -/
def exactMatchesOf (proj : Project) (ident : String) : List Candidate :=
  (iterTypes proj).filterMap (fun mt =>
    if pyStrip mt.2.FullName = ident then some (mkCandidate mt.1 mt.2) else none)

/-- The partial-match set described by the spec, computed on its own:
types whose stripped full name is non-empty, differs from the
identifier, and case-insensitively contains it. -/
def partialMatchesOf (proj : Project) (ident : String) : List Candidate :=
  (iterTypes proj).filterMap (fun mt =>
    let tFull := pyStrip mt.2.FullName
    if tFull ≠ ident ∧ tFull ≠ "" ∧ strContains (pyLower tFull) (pyLower ident) = true then
      some (mkCandidate mt.1 mt.2)
    else none)

/-- The selected match set: the exact set when non-empty, else the
partial set (`matches = exact_matches or partial_matches`). -/
def selectedMatchesOf (proj : Project) (ident : String) : List Candidate :=
  if exactMatchesOf proj ident = [] then partialMatchesOf proj ident
  else exactMatchesOf proj ident

/-- The resolver as §4.3 of the spec describes it, built from the
independently-defined exact/partial sets; compared against
`clear_lookup` in the theorems below. -/
def clearLookupSpec (proj : Project) (identifier : String) : Resolution :=
  let ident := pyIdent identifier
  if ident = "" then Resolution.bad_request "empty identifier"
  else
    match selectedMatchesOf proj ident with
    | [] => Resolution.not_found ident
    | [m] => Resolution.ok ident m.assemblyPath m.typeFullName m.sourcePath
    | ms => Resolution.ambiguous ident ms

/-- Modelled from the spec: trimming surrounding whitespace and then
one layer of enclosing double quotes (the spec's description of the
resolver's identifier normalization, §4.3; the code instead strips all
leading and trailing quote characters, see `pyStripQuotes`). -/
def stripOneQuoteLayer (s : String) : String :=
  let t := pyStrip s
  match t.data with
  | [] => t
  | c :: rest =>
      if c = '"' ∧ rest ≠ [] ∧ rest.getLast? = some '"' then ⟨rest.dropLast⟩ else t

/-! ## Reference Finder (`find_type_references`, lines 237-359) -/

/-- First-pass target test (lines 258-269): a type with at least one of
name/full-name present is a target when its lowercased name or full
name equals the lowercased identifier, or its non-empty lowercased full
name contains it as a substring. -/
def isTargetType (identLower : String) (t : PType) : Bool :=
  let tName := pyStrip t.Name
  let tFull := pyStrip t.FullName
  if tName = "" ∧ tFull = "" then false
  else
    let nameLower := pyLower tName
    let fullLower := pyLower tFull
    decide (nameLower = identLower) || decide (fullLower = identLower) ||
      (decide (fullLower ≠ "") && strContains fullLower identLower)

/-- The distinct non-empty names of the discovered targets
(`target_names`; a Python set, modelled as a list in scan order - it is
only ever used inside `any`-style containment, which ignores order and
duplicates). -/
def targetNamesOf (proj : Project) (identLower : String) : List String :=
  (iterTypes proj).filterMap (fun mt =>
    if isTargetType identLower mt.2 = true ∧ pyStrip mt.2.Name ≠ "" then
      some (pyStrip mt.2.Name)
    else none)

/-- The non-empty full names of the discovered targets
(`target_full_names`, also `spec_type_full_names`: the extra
`{full for full in target_full_names if full}` filter is the identity
since only non-empty full names are ever added). -/
def targetFullsOf (proj : Project) (identLower : String) : List String :=
  (iterTypes proj).filterMap (fun mt =>
    if isTargetType identLower mt.2 = true ∧ pyStrip mt.2.FullName ≠ "" then
      some (pyStrip mt.2.FullName)
    else none)

/-- The containment vocabulary (lines 277-280):
`{ident} | target_names | target_full_names`, empties discarded. -/
def refTokens (proj : Project) (ident : String) : List String :=
  (ident :: (targetNamesOf proj (pyLower ident) ++ targetFullsOf proj (pyLower ident))).filter
    (fun tok => decide (tok ≠ ""))

/-- `contains_token(s)` (lines 286-293). -/
def containsToken (tokens : List String) (s : String) : Bool :=
  if s = "" then false
  else tokens.any (fun tok => strContains (pyLower s) (pyLower tok))

/-- The reason string built for a matching member (lines 326-334):
member kind (or `"member"`), the name when present, then
`sig=...` falling back to `fullName=...`. -/
def memberDesc (m : Member) : String :=
  let mt := pyStrip m.MemberType
  let d0 := if mt ≠ "" then mt else "member"
  let d1 := if pyStrip m.Name ≠ "" then d0 ++ " " ++ pyStrip m.Name else d0
  if pyStrip m.Signature ≠ "" then d1 ++ " sig=" ++ pyStrip m.Signature
  else if pyStrip m.FullName ≠ "" then d1 ++ " fullName=" ++ pyStrip m.FullName
  else d1

/-- The member loop of the reference scan (lines 320-338): append a
reason for each member whose stripped signature or full name contains a
token, and break as soon as the reason list has reached 10 entries. -/
def reasonsLoop (tokens : List String) (acc : List String) : List Member → List String
  | [] => acc
  | m :: rest =>
      let acc2 :=
        if containsToken tokens (pyStrip m.Signature) = true ∨
            containsToken tokens (pyStrip m.FullName) = true then
          acc ++ [memberDesc m]
        else acc
      if 10 ≤ acc2.length then acc2 else reasonsLoop tokens acc2 rest

/-- All reasons recorded for one type: the base-type reason (lines
316-318) followed by the member reasons. -/
def reasonsOf (tokens : List String) (t : PType) : List String :=
  let baseType := pyStrip t.BaseType
  let base := if containsToken tokens baseType = true then ["baseType=" ++ baseType] else []
  reasonsLoop tokens base (iterMembers t)

structure TypeRefHit where
  kind : String
  name : String
  fullName : String
  moduleName : String
  assemblyPath : String
  sourcePath : String
  reasons : List String
deriving DecidableEq

/-- One iteration of the reference scan (lines 297-353): skip the type
when its stripped full name is one of the target full names
(`if spec_type_full_names and t_full in spec_type_full_names`), and
otherwise produce a `typeRef` hit when at least one reason was found. -/
def refCandidate (tokens : List String) (targetFulls : List String)
    (mt : PModule × PType) : Option TypeRefHit :=
  let tFull := pyStrip mt.2.FullName
  if targetFulls ≠ [] ∧ tFull ∈ targetFulls then none
  else
    let rs := reasonsOf tokens mt.2
    if rs ≠ [] then
      some { kind := "typeRef", name := pyStrip mt.2.Name,
             fullName := if tFull ≠ "" then tFull else pyStrip mt.2.Name,
             moduleName := pyStrip mt.1.Name, assemblyPath := moduleAssemblyPath mt.1,
             sourcePath := pyStrip mt.2.SourceFilePath, reasons := rs }
    else none

structure RefsResult where
  identifier : String
  hits : List TypeRefHit
deriving DecidableEq

/-- `find_type_references(identifier, max_results)`; an identifier that
is empty after trimming raises `ValueError("empty identifier")`. -/
def find_type_references (proj : Project) (identifier : String) (maxResults : Int) :
    Except String RefsResult :=
  let ident := pyIdent identifier
  if ident = "" then Except.error "empty identifier"
  else
    let tokens := refTokens proj ident
    let targetFulls := targetFullsOf proj (pyLower ident)
    Except.ok
      { identifier := ident,
        hits := emitCapped (effectiveMaxResults maxResults).toNat []
          ((iterTypes proj).map (refCandidate tokens targetFulls)) }

/-- The hit list of a reference-search result (empty on error). -/
def refHitsOf (r : Except String RefsResult) : List TypeRefHit :=
  match r with
  | Except.ok res => res.hits
  | Except.error _ => []

/-! ## Keyword Path Builder (`build_paths_from_tree`, lines 362-431) -/

/-- One raw entry of the keyword tree handed to the builder: `keyword`
is `none` when the field is missing or not a string (such entries are
dropped), `parent` is `none` for JSON null or a non-string value. -/
structure RawNode where
  keyword : Option String
  parent : Option String
deriving DecidableEq

structure TreeNode where
  keyword : String
  parent : Option String
deriving DecidableEq

/-- Lines 376-386, per entry: keep an entry whose keyword is a string
with non-empty strip, trimming the keyword (non-string parents were
already nulled in `RawNode`). -/
def normalizeNode (n : RawNode) : Option TreeNode :=
  match n.keyword with
  | some s => if pyStrip s = "" then none else some ⟨pyStrip s, n.parent⟩
  | none => none

/-- Lines 376-386: the normalized, filtered node list. -/
def normalizeNodes (tree : List RawNode) : List TreeNode :=
  tree.filterMap normalizeNode

/-- `children.get(pkey)`: the keywords of the nodes whose parent equals
`pkey`, in node order (the adjacency dict appends in node order). -/
def childrenOf (ns : List TreeNode) (pkey : Option String) : List String :=
  match ns with
  | [] => []
  | n :: rest =>
      if n.parent = pkey then n.keyword :: childrenOf rest pkey
      else childrenOf rest pkey

/-- `parent_of.get(kw)`: the parent recorded for a keyword; later nodes
overwrite earlier ones, so the last node with this keyword wins. -/
def parentLookup (ns : List TreeNode) (kw : String) : Option String :=
  match ns.reverse.find? (fun n => n.keyword == kw) with
  | some n => n.parent
  | none => none

/-- Lines 408-418: the keyword as it is appended to the path - when the
parent is a non-empty string and the lowercased child starts with the
lowercased parent, the parent prefix and any following `_`, ` `, `.`
characters are stripped, unless that would leave the child empty. -/
def displayOf (parentKw : Option String) (kw : String) : String :=
  match parentKw with
  | none => kw
  | some p =>
      if p ≠ "" ∧ strStarts (pyLower kw) (pyLower p) = true then
        let trimmed := lstripSet "_ ." (strDrop kw (strLen p))
        if trimmed ≠ "" then trimmed else kw
      else kw

/-- The depth-first traversal `dfs` (lines 407-426), with the phrases it
appends to `paths` as its value.  Python recurses without bound (a
cyclic child relation crashes the interpreter); the embedding carries
fuel, and `build_paths_from_tree` supplies enough for every acyclic
input, since an acyclic descent visits pairwise distinct keywords. -/
def dfs (ns : List TreeNode) (fuel : Nat) (kw : String) (acc : List String)
    (parentKw : Option String) : List String :=
  match fuel with
  | 0 => []
  | Nat.succ fuel =>
      let acc2 := acc ++ [displayOf parentKw kw]
      let kids := childrenOf ns (some kw)
      if kids = [] then [joinSp acc2]
      else kids.flatMap (fun c => dfs ns fuel c acc2 (some kw))

/-- `build_paths_from_tree(tree)`. -/
def build_paths_from_tree (tree : List RawNode) : List String :=
  if tree = [] then []
  else
    let ns := normalizeNodes tree
    if ns = [] then []
    else
      let roots0 := childrenOf ns none ++ childrenOf ns (some "")
      let roots := if roots0 = [] then ns.map (fun n => n.keyword) else roots0
      roots.flatMap (fun r => dfs ns (ns.length + 1) r [] (parentLookup ns r))

/-! ## Concrete corpora and documents used by the theorems below -/

/-- Two modules whose names both match an all-accepting pattern. -/
def p2mods : Project :=
  { Modules := [{ Name := "Alpha" }, { Name := "Beta" }] }

/-- One type `A.Bar` in a module named `M1`. -/
def pModA : Project :=
  { Modules := [{ Name := "M1", AssemblyPath := "p.dll",
                  Types := [{ Name := "Bar", FullName := "A.Bar", SourceFilePath := "s.cs" }] }] }

/-- The same corpus with the module renamed to `M2`. -/
def pModB : Project :=
  { Modules := [{ Name := "M2", AssemblyPath := "p.dll",
                  Types := [{ Name := "Bar", FullName := "A.Bar", SourceFilePath := "s.cs" }] }] }

/-- A type named `Money` whose full name is empty and whose method
signature mentions `Money`. -/
def tMoney : PType :=
  { Name := "Money", FullName := "",
    Methods := [{ Name := "Get", FullName := "Money.Get", Signature := "Money Get()" }] }

def pMoney : Project :=
  { Modules := [{ Name := "M", Types := [tMoney] }] }

/-- A target type `NS.Money` and a second type `NS.Wallet` whose field
signature mentions it. -/
def pWallet : Project :=
  { Modules := [{ Name := "M",
                  Types := [{ Name := "Money", FullName := "NS.Money" },
                            { Name := "Wallet", FullName := "NS.Wallet",
                              Fields := [{ Name := "cash", FullName := "NS.Wallet.cash",
                                           Signature := "NS.Money cash" }] }] }] }

/-- The keyword tree of the spec's flattening example. -/
def exPlayerTree : List RawNode :=
  [⟨some "Player", none⟩, ⟨some "Health", some "Player"⟩,
   ⟨some "Attack", some "Player"⟩, ⟨some "Power", some "Attack"⟩]

/-- Parent `Attack` with child `AttackSpeed` (prefix stripped). -/
def exAttackTree : List RawNode :=
  [⟨some "Attack", none⟩, ⟨some "AttackSpeed", some "Attack"⟩]

/-- Parent `Attack` with child `Attack_`: stripping would leave the
child empty, so the original text is kept. -/
def exAttackKeepTree : List RawNode :=
  [⟨some "Attack", none⟩, ⟨some "Attack_", some "Attack"⟩]

/-- A single node whose parent names no node: no root exists, so the
builder falls back to treating every node as a root. -/
def exOrphanTree : List RawNode :=
  [⟨some "A", some "B"⟩]

/-- A rank function witnessing that `exOrphanTree` is acyclic. -/
def rankOrphan (s : String) : Nat :=
  if s = "B" then 0 else 1

/-- The unrecognized-shape startup document of the spec's degraded-load
example. -/
def unexpectedDoc : JVal :=
  JVal.jobj [("unexpected", JVal.jbool true)]

/-! ## Helper lemmas -/

theorem emitCapped_eq_take {α : Type} :
    ∀ (cands : List (Option α)) (k : Nat) (acc : List α), acc.length < k →
      emitCapped k acc cands = acc ++ (cands.filterMap id).take (k - acc.length) := by
  intro cands
  induction cands with
  | nil => intro k acc _; simp [emitCapped]
  | cons c rest ih =>
      intro k acc h
      cases c with
      | none => simpa [emitCapped] using ih k acc h
      | some x =>
          simp only [emitCapped]
          by_cases hk : k ≤ (acc ++ [x]).length
          · rw [if_pos hk]
            have hx : k - acc.length = 1 := by simp at hk; omega
            simp [hx]
          · rw [if_neg hk]
            have hlt : (acc ++ [x]).length < k := by
              rcases Nat.lt_or_ge (acc ++ [x]).length k with h1 | h1
              · exact h1
              · exact absurd h1 hk
            rw [ih k (acc ++ [x]) hlt]
            have hs : k - acc.length = (k - (acc ++ [x]).length) + 1 := by
              simp at hlt ⊢; omega
            simp [hs, List.take_succ_cons]

theorem effectiveMaxResults_toNat_pos (m : Int) : 1 ≤ (effectiveMaxResults m).toNat := by
  unfold effectiveMaxResults
  split <;> omega

theorem broad_search_eq_take (test : String → Bool) (proj : Project) (m : Int) :
    broad_search test proj m =
      (broadSearchAll test proj).take (effectiveMaxResults m).toNat := by
  unfold broad_search broadSearchAll
  rw [emitCapped_eq_take _ _ _
    (by have h := effectiveMaxResults_toNat_pos m; simp; omega)]
  simp

theorem find_type_references_ok_iff (proj : Project) (identifier : String) (m : Int) :
    ∀ r, find_type_references proj identifier m = Except.ok r →
      pyIdent identifier ≠ "" ∧
      r = { identifier := pyIdent identifier,
            hits := emitCapped (effectiveMaxResults m).toNat []
              ((iterTypes proj).map (refCandidate (refTokens proj (pyIdent identifier))
                (targetFullsOf proj (pyLower (pyIdent identifier))))) } := by
  intro r h
  unfold find_type_references at h
  by_cases hid : pyIdent identifier = ""
  · rw [if_pos hid] at h
    exact absurd h (by simp)
  · rw [if_neg hid] at h
    exact ⟨hid, (Except.ok.injEq _ _).mp h |>.symm⟩

theorem reasonsLoop_length_le (tokens : List String) :
    ∀ (ms : List Member) (acc : List String), acc.length ≤ 9 →
      (reasonsLoop tokens acc ms).length ≤ 10 := by
  intro ms
  induction ms with
  | nil => intro acc h; simpa [reasonsLoop] using by omega
  | cons m rest ih =>
      intro acc h
      simp only [reasonsLoop]
      by_cases hm : containsToken tokens (pyStrip m.Signature) = true ∨
          containsToken tokens (pyStrip m.FullName) = true
      · rw [if_pos hm]
        by_cases hb : 10 ≤ (acc ++ [memberDesc m]).length
        · rw [if_pos hb]; simp; omega
        · rw [if_neg hb]
          exact ih (acc ++ [memberDesc m]) (by simp at hb ⊢; omega)
      · rw [if_neg hm]
        by_cases hb : 10 ≤ acc.length
        · rw [if_pos hb]; omega
        · rw [if_neg hb]; exact ih acc (by omega)

theorem reasonsOf_length_le (tokens : List String) (t : PType) :
    (reasonsOf tokens t).length ≤ 10 := by
  unfold reasonsOf
  apply reasonsLoop_length_le
  split <;> simp

theorem refCandidate_some (tokens targetFulls : List String) (mt : PModule × PType)
    (x : TypeRefHit) (h : refCandidate tokens targetFulls mt = some x) :
    pyStrip mt.2.FullName ∉ targetFulls ∧ reasonsOf tokens mt.2 ≠ [] ∧
      x.reasons = reasonsOf tokens mt.2 := by
  unfold refCandidate at h
  by_cases hskip : targetFulls ≠ [] ∧ pyStrip mt.2.FullName ∈ targetFulls
  · rw [if_pos hskip] at h; exact absurd h (by simp)
  · rw [if_neg hskip] at h
    have hnotin : pyStrip mt.2.FullName ∉ targetFulls := by
      intro hmem
      rcases List.exists_mem_of_ne_nil targetFulls (by rintro rfl; simp at hmem) with _
      exact hskip ⟨by rintro rfl; simp at hmem, hmem⟩
    by_cases hrs : reasonsOf tokens mt.2 ≠ []
    · rw [if_pos hrs] at h
      refine ⟨hnotin, hrs, ?_⟩
      cases h
      rfl
    · rw [if_neg hrs] at h; exact absurd h (by simp)

theorem collectMatches_eq (ident : String) :
    ∀ l : List (PModule × PType),
      collectMatches ident l =
        (l.filterMap (fun mt =>
            if pyStrip mt.2.FullName = ident then some (mkCandidate mt.1 mt.2) else none),
         l.filterMap (fun mt =>
            if pyStrip mt.2.FullName ≠ ident ∧ pyStrip mt.2.FullName ≠ "" ∧
                strContains (pyLower (pyStrip mt.2.FullName)) (pyLower ident) = true then
              some (mkCandidate mt.1 mt.2)
            else none)) := by
  intro l
  induction l with
  | nil => simp [collectMatches]
  | cons mt rest ih =>
      obtain ⟨mod, t⟩ := mt
      simp only [collectMatches, ih, List.filterMap_cons]
      by_cases he : pyStrip t.FullName = ident
      · simp [he]
      · rw [if_neg he]
        by_cases hp : pyStrip t.FullName ≠ "" ∧
            strContains (pyLower (pyStrip t.FullName)) (pyLower ident) = true
        · rw [if_pos hp]
          simp [he, hp.1, hp.2]
        · rw [if_neg hp]
          have : ¬(pyStrip t.FullName ≠ ident ∧ pyStrip t.FullName ≠ "" ∧
              strContains (pyLower (pyStrip t.FullName)) (pyLower ident) = true) := by
            intro hc; exact hp ⟨hc.2.1, hc.2.2⟩
          simp [if_neg he, if_neg this]

theorem clear_lookup_eq_spec (proj : Project) (identifier : String) :
    clear_lookup proj identifier = clearLookupSpec proj identifier := by
  unfold clear_lookup clearLookupSpec
  by_cases hid : pyIdent identifier = ""
  · simp [hid]
  · rw [if_neg hid, if_neg hid]
    rw [collectMatches_eq]
    rfl

theorem childrenOf_mem (c : String) :
    ∀ (ns : List TreeNode) (pkey : Option String), c ∈ childrenOf ns pkey →
      ∃ n ∈ ns, n.keyword = c ∧ n.parent = pkey := by
  intro ns
  induction ns with
  | nil => intro pkey h; simp [childrenOf] at h
  | cons n rest ih =>
      intro pkey h
      simp only [childrenOf] at h
      by_cases hp : n.parent = pkey
      · rw [if_pos hp] at h
        rcases List.mem_cons.mp h with h1 | h1
        · exact ⟨n, List.mem_cons_self n rest, h1.symm, hp⟩
        · rcases ih pkey h1 with ⟨n2, hn2, hk, hpar⟩
          exact ⟨n2, List.mem_cons_of_mem n hn2, hk, hpar⟩
      · rw [if_neg hp] at h
        rcases ih pkey h with ⟨n2, hn2, hk, hpar⟩
        exact ⟨n2, List.mem_cons_of_mem n hn2, hk, hpar⟩

theorem childrenOf_eq_nil (ns : List TreeNode) (pkey : Option String)
    (h : ∀ n ∈ ns, n.parent ≠ pkey) : childrenOf ns pkey = [] := by
  induction ns with
  | nil => rfl
  | cons n rest ih =>
      simp only [childrenOf]
      rw [if_neg (h n (List.mem_cons_self n rest))]
      exact ih (fun n2 hn2 => h n2 (List.mem_cons_of_mem n hn2))

theorem length_le_flatMap {α β : Type} :
    ∀ (l : List α) (f : α → List β), (∀ x ∈ l, f x ≠ []) →
      l.length ≤ (l.flatMap f).length := by
  intro l
  induction l with
  | nil => intro f _; simp
  | cons a rest ih =>
      intro f h
      have h1 : 1 ≤ (f a).length := by
        have := h a (List.mem_cons_self a rest)
        cases hfa : f a with
        | nil => exact absurd hfa this
        | cons x xs => simp
      have h2 := ih f (fun x hx => h x (List.mem_cons_of_mem a hx))
      simp only [List.flatMap_cons, List.length_append, List.length_cons]
      omega

theorem dfs_ne_nil (ns : List TreeNode) (rank : String → Nat) (N : Nat)
    (hedge : ∀ n ∈ ns, ∀ p, n.parent = some p → rank p < rank n.keyword)
    (hbound : ∀ n ∈ ns, rank n.keyword ≤ N) :
    ∀ (fuel : Nat) (kw : String) (acc : List String) (pkw : Option String),
      rank kw ≤ N → N + 1 ≤ fuel + rank kw → dfs ns fuel kw acc pkw ≠ [] := by
  intro fuel
  induction fuel with
  | zero => intro kw acc pkw hr hf; omega
  | succ fuel ih =>
      intro kw acc pkw hr hf
      simp only [dfs]
      by_cases hkids : childrenOf ns (some kw) = []
      · rw [if_pos hkids]; simp
      · rw [if_neg hkids]
        rcases List.exists_cons_of_ne_nil hkids with ⟨c, rest, hcr⟩
        rw [hcr]
        have hc : c ∈ childrenOf ns (some kw) := by rw [hcr]; exact List.mem_cons_self c rest
        rcases childrenOf_mem c ns (some kw) hc with ⟨n, hn, hk, hpar⟩
        have hlt : rank kw < rank c := by
          have := hedge n hn kw hpar
          rwa [hk] at this
        have hcb : rank c ≤ N := by
          have := hbound n hn
          rwa [hk] at this
        have hrec := ih c (acc ++ [displayOf pkw kw]) (some kw) hcb (by omega)
        simp only [List.flatMap_cons]
        intro hcontra
        exact hrec (List.append_eq_nil.mp hcontra).1

theorem effectiveMaxResults_idem (m : Int) :
    effectiveMaxResults (effectiveMaxResults m) = effectiveMaxResults m := by
  unfold effectiveMaxResults
  split_ifs <;> omega

/-- C1 (amended): both `broad_search` and `find_type_references` clamp
the caller's maxResults through `effectiveMaxResults`, which maps zero
(and, at the HTTP layer, an absent value) to 500, clamps values above
500 down to 500, and clamps negative values up to 1 - not to 500 as
the original claim states; accordingly both searches behave exactly as
if called with the clamped value. -/
theorem effectiveMaxResults_clamp :
    ∀ m : Int,
      effectiveMaxResults m =
        (if m = 0 then 500 else if m < 1 then 1 else if m ≤ 500 then m else 500) ∧
      (∀ (test : String → Bool) (proj : Project),
        broad_search test proj (effectiveMaxResults m) = broad_search test proj m) ∧
      (∀ (proj : Project) (identifier : String),
        find_type_references proj identifier (effectiveMaxResults m) =
          find_type_references proj identifier m) := by
  intro m
  refine ⟨?_, ?_, ?_⟩
  · unfold effectiveMaxResults
    split_ifs <;> omega
  · intro test proj
    unfold broad_search
    rw [effectiveMaxResults_idem]
  · intro proj identifier
    unfold find_type_references
    rw [effectiveMaxResults_idem]

/-- C1 counterexample: for the negative caller value `-1` the original
claim predicts an effective maxResults of 500, under which this
two-module corpus would yield both of its hits; the code clamps `-1`
to 1 and returns a single hit. -/
theorem effectiveMaxResults_negative_cex :
    effectiveMaxResults (-1) = 1 ∧
    (broad_search (fun _ => true) p2mods (-1)).length = 1 ∧
    (broad_search (fun _ => true) p2mods 500).length = 2 := by
  decide

/-- C2: for every corpus, every pattern (abstracted as its match test),
and every cap k in [1,500], `broad_search` returns at most k hits, the
result is exactly the length-min(k, total) prefix of the exhaustive
module-then-type-then-member scan `broadSearchAll` (the scan stops the
instant the count reaches k), and for k at least the number of true
matches it equals the full unclamped match list in that order. -/
theorem broadSearch_cap_order (test : String → Bool) (proj : Project) (k : Int)
    (h1 : 1 ≤ k) (h2 : k ≤ 500) :
    (broad_search test proj k).length ≤ k.toNat ∧
    broad_search test proj k = (broadSearchAll test proj).take k.toNat ∧
    ((broadSearchAll test proj).length ≤ k.toNat →
      broad_search test proj k = broadSearchAll test proj) := by
  have he : (effectiveMaxResults k).toNat = k.toNat := by
    unfold effectiveMaxResults
    split_ifs <;> omega
  rw [broad_search_eq_take, he]
  refine ⟨by simp, rfl, fun h => List.take_of_length_le h⟩

/-- Witness for C2 at a concrete two-module corpus, the all-accepting
test, and cap 2. -/
theorem broadSearch_cap_order_witness :
    (broad_search (fun _ => true) p2mods 2).length ≤ (2 : Int).toNat ∧
    broad_search (fun _ => true) p2mods 2 =
      (broadSearchAll (fun _ => true) p2mods).take (2 : Int).toNat ∧
    ((broadSearchAll (fun _ => true) p2mods).length ≤ (2 : Int).toNat →
      broad_search (fun _ => true) p2mods 2 = broadSearchAll (fun _ => true) p2mods) :=
  broadSearch_cap_order (fun _ => true) p2mods 2 (by norm_num) (by norm_num)

/-- C9: loading the unrecognized-shape document `{"unexpected": true}`
yields a corpus with zero modules, and `broad_search` over that corpus
returns the empty sequence for every pattern test and every cap. -/
theorem degradedLoad_empty_search :
    ∀ (test : String → Bool) (k : Int),
      (corpusOfDoc unexpectedDoc).Modules = [] ∧
      broad_search test (corpusOfDoc unexpectedDoc) k = [] := by
  intro test k
  exact ⟨rfl, rfl⟩

/-- C3: `clear_lookup` coincides with the spec-side resolver
`clearLookupSpec`, which computes the exact-match set (ordinary string
equality of the trimmed identifier with the trimmed type full name)
first, lets it alone determine the outcome when non-empty (partial
case-insensitive-substring matches are ignored), falls back to the
partial set otherwise, and decides ok versus ambiguous solely by
whether the selected set has one or more than one element. -/
theorem clearLookup_exact_precedence :
    ∀ (proj : Project) (identifier : String),
      clear_lookup proj identifier = clearLookupSpec proj identifier :=
  clear_lookup_eq_spec

/-- C4 counterexample: two corpora that differ only in the module name
(`M1` versus `M2`) produce identical `ok` results for the same
single-match lookup, so the `ok` record cannot carry the matched type's
module name - the response (lines 225-231) holds only the identifier,
assembly path, type full name and source path. -/
theorem clearLookup_ok_no_module_cex :
    clear_lookup pModA "A.Bar" = Resolution.ok "A.Bar" "p.dll" "A.Bar" "s.cs" ∧
    clear_lookup pModB "A.Bar" = Resolution.ok "A.Bar" "p.dll" "A.Bar" "s.cs" ∧
    pModA ≠ pModB := by
  decide

/-- C4 (amended): whenever the selected match set is a single candidate,
`clear_lookup` returns `ok` carrying the trimmed identifier together
with the matched type's assembly path, type full name and source path
(the module name is only logged, not part of the result). -/
theorem clearLookup_ok_payload (proj : Project) (identifier : String) (m : Candidate)
    (h1 : pyIdent identifier ≠ "")
    (h2 : selectedMatchesOf proj (pyIdent identifier) = [m]) :
    clear_lookup proj identifier =
      Resolution.ok (pyIdent identifier) m.assemblyPath m.typeFullName m.sourcePath := by
  rw [clear_lookup_eq_spec]
  unfold clearLookupSpec
  simp only [if_neg h1, h2]

/-- Witness for C4 at a concrete corpus with exactly one match. -/
theorem clearLookup_ok_payload_witness :
    pyIdent "A.Bar" ≠ "" ∧
    selectedMatchesOf pModA (pyIdent "A.Bar") = [⟨"M1", "p.dll", "A.Bar", "s.cs"⟩] ∧
    clear_lookup pModA "A.Bar" =
      Resolution.ok (pyIdent "A.Bar") "p.dll" "A.Bar" "s.cs" :=
  ⟨by decide, by decide,
    clearLookup_ok_payload pModA "A.Bar" ⟨"M1", "p.dll", "A.Bar", "s.cs"⟩
      (by decide) (by decide)⟩

/-- C5 counterexample: for the identifier made of four double-quote
characters the code strips every leading and trailing quote and answers
`bad_request`, while removing only one enclosing layer of quotes - as
the claim describes the trimming - leaves the non-empty two-quote
string, for which the claim predicts an ok/ambiguous/not_found outcome. -/
theorem clearLookup_badRequest_cex :
    clear_lookup { Modules := [] } "\"\"\"\"" = Resolution.bad_request "empty identifier" ∧
    stripOneQuoteLayer "\"\"\"\"" = "\"\"" ∧
    stripOneQuoteLayer "\"\"\"\"" ≠ "" := by
  decide

/-- C5 (amended): `clear_lookup` answers `bad_request` if and only if
the identifier is empty after trimming surrounding whitespace and then
all leading and trailing double-quote characters; for any other input
the status is one of ok, ambiguous, not_found. -/
theorem clearLookup_badRequest_iff :
    ∀ (proj : Project) (identifier : String),
      (statusOf (clear_lookup proj identifier) = "bad_request" ↔ pyIdent identifier = "") ∧
      (statusOf (clear_lookup proj identifier) = "bad_request" ∨
       statusOf (clear_lookup proj identifier) = "ok" ∨
       statusOf (clear_lookup proj identifier) = "ambiguous" ∨
       statusOf (clear_lookup proj identifier) = "not_found") := by
  intro proj identifier
  unfold clear_lookup
  by_cases hid : pyIdent identifier = ""
  · simp [hid, statusOf]
  · simp only [if_neg hid]
    split
    · simp [statusOf, hid]
    · simp [statusOf, hid]
    · simp [statusOf, hid]

theorem mem_refScan_inv (proj : Project) (tokens targetFulls : List String) (k : Nat)
    (hk : 1 ≤ k) (h : TypeRefHit)
    (hh : h ∈ emitCapped k [] ((iterTypes proj).map (refCandidate tokens targetFulls))) :
    ∃ mt ∈ iterTypes proj, refCandidate tokens targetFulls mt = some h := by
  rw [emitCapped_eq_take _ _ _ (by simpa using hk)] at hh
  simp only [List.nil_append, Nat.sub_zero] at hh
  have hh2 := List.mem_of_mem_take hh
  rw [List.filterMap_map] at hh2
  rcases List.mem_filterMap.mp hh2 with ⟨mt, hmt, heq⟩
  exact ⟨mt, hmt, heq⟩

/-- C6 (amended): whenever `find_type_references` succeeds, the raw
trimmed identifier belongs to the containment token set (even when
target discovery found nothing); the hit list is exactly the
maxResults-prefix of the scan that visits every (module, type) pair and
skips precisely the types whose trimmed full name equals one of the
discovered target full names, emitting a reasoned `typeRef` hit for
every other type whose base type, member signature or member full name
contains a token; consequently every returned hit stems from a type
whose trimmed full name is not a target full name.  (A discovered
target whose full name is empty is not skipped and can appear among the
hits - see the counterexample - and matches beyond the cap are cut.) -/
theorem findTypeReferences_scan (proj : Project) (identifier : String) (k : Int)
    (r : RefsResult) (hok : find_type_references proj identifier k = Except.ok r) :
    pyIdent identifier ∈ refTokens proj (pyIdent identifier) ∧
    r.hits = (((iterTypes proj).map (refCandidate (refTokens proj (pyIdent identifier))
        (targetFullsOf proj (pyLower (pyIdent identifier))))).filterMap id).take
        (effectiveMaxResults k).toNat ∧
    (∀ h ∈ r.hits, ∃ mt ∈ iterTypes proj,
      pyStrip mt.2.FullName ∉ targetFullsOf proj (pyLower (pyIdent identifier)) ∧
      reasonsOf (refTokens proj (pyIdent identifier)) mt.2 ≠ [] ∧
      refCandidate (refTokens proj (pyIdent identifier))
        (targetFullsOf proj (pyLower (pyIdent identifier))) mt = some h) := by
  obtain ⟨hid, hr⟩ := find_type_references_ok_iff proj identifier k r hok
  refine ⟨?_, ?_, ?_⟩
  · unfold refTokens
    exact List.mem_filter.mpr ⟨List.mem_cons_self _ _, by simp [hid]⟩
  · rw [hr]
    rw [emitCapped_eq_take _ _ _
      (by have := effectiveMaxResults_toNat_pos k; simp; omega)]
    simp [List.filterMap_map]
  · intro h hh
    rw [hr] at hh
    simp only at hh
    rcases mem_refScan_inv proj _ _ _ (effectiveMaxResults_toNat_pos k) h hh with
      ⟨mt, hmt, heq⟩
    obtain ⟨hnotin, hrs, _⟩ := refCandidate_some _ _ mt h heq
    exact ⟨mt, hmt, hnotin, hrs, heq⟩

/-- Witness for C6 at a concrete corpus where `NS.Wallet` references the
target type `NS.Money` through a field signature. -/
theorem findTypeReferences_scan_witness :
    pyIdent "NS.Money" ∈ refTokens pWallet (pyIdent "NS.Money") ∧
    (RefsResult.mk "NS.Money"
        [{ kind := "typeRef", name := "Wallet", fullName := "NS.Wallet",
           moduleName := "M", assemblyPath := "", sourcePath := "",
           reasons := ["member cash sig=NS.Money cash"] }]).hits =
      (((iterTypes pWallet).map (refCandidate (refTokens pWallet (pyIdent "NS.Money"))
          (targetFullsOf pWallet (pyLower (pyIdent "NS.Money"))))).filterMap id).take
          (effectiveMaxResults 10).toNat ∧
    (∀ h ∈ (RefsResult.mk "NS.Money"
        [{ kind := "typeRef", name := "Wallet", fullName := "NS.Wallet",
           moduleName := "M", assemblyPath := "", sourcePath := "",
           reasons := ["member cash sig=NS.Money cash"] }]).hits,
      ∃ mt ∈ iterTypes pWallet,
        pyStrip mt.2.FullName ∉ targetFullsOf pWallet (pyLower (pyIdent "NS.Money")) ∧
        reasonsOf (refTokens pWallet (pyIdent "NS.Money")) mt.2 ≠ [] ∧
        refCandidate (refTokens pWallet (pyIdent "NS.Money"))
          (targetFullsOf pWallet (pyLower (pyIdent "NS.Money"))) mt = some h) :=
  findTypeReferences_scan pWallet "NS.Money" 10
    (RefsResult.mk "NS.Money"
      [{ kind := "typeRef", name := "Wallet", fullName := "NS.Wallet",
         moduleName := "M", assemblyPath := "", sourcePath := "",
         reasons := ["member cash sig=NS.Money cash"] }]) rfl

/-- C6 counterexample: the type named `Money` has an empty full name;
it is discovered as a target, yet the reference scan does not skip it
(the skip tests only the collected target full names, all of which are
non-empty) and returns the target itself as a typeRef hit - refuting
"a type from the target set never appears among the typeRef hits". -/
theorem findTypeReferences_target_self_cex :
    isTargetType (pyLower (pyIdent "Money")) tMoney = true ∧
    pyStrip tMoney.Name = "Money" ∧
    refHitsOf (find_type_references pMoney "Money" 10) =
      [{ kind := "typeRef", name := "Money", fullName := "Money", moduleName := "M",
         assemblyPath := "", sourcePath := "",
         reasons := ["member Get sig=Money Get()"] }] := by
  decide

/-- C7: every typeRef hit returned by `find_type_references` carries at
most 10 reasons, for every corpus, identifier and maxResults - the
per-type reason cap is enforced inside the member scan, independently
of the overall maxResults cap. -/
theorem findTypeReferences_reasons_le_ten :
    ∀ (proj : Project) (identifier : String) (k : Int),
      (refHitsOf (find_type_references proj identifier k)).all
        (fun h => decide (h.reasons.length ≤ 10)) = true := by
  intro proj identifier k
  rw [List.all_eq_true]
  intro h hh
  cases hfr : find_type_references proj identifier k with
  | error e => rw [hfr] at hh; simp [refHitsOf] at hh
  | ok r =>
      rw [hfr] at hh
      simp only [refHitsOf] at hh
      obtain ⟨hid, hreq⟩ := find_type_references_ok_iff proj identifier k r hfr
      rw [hreq] at hh
      simp only at hh
      rcases mem_refScan_inv proj _ _ _ (effectiveMaxResults_toNat_pos k) h hh with
        ⟨mt, hmt, heq⟩
      obtain ⟨_, _, hreasons⟩ := refCandidate_some _ _ mt h heq
      rw [hreasons]
      exact decide_eq_true (reasonsOf_length_le _ mt.2)

/-- C10 (implicit): for a non-empty list of well-formed keyword nodes in
which no node has a null or empty parent and whose parent links are
acyclic (witnessed by a rank function increasing from parent to child
and bounded by the node count), the tree builder does not return the
empty sequence: it falls back to treating every node's keyword as a
root and emits at least one phrase per node-rooted traversal, so the
output has at least as many phrases as there are nodes. -/
theorem buildPaths_fallback_nonempty (tree : List RawNode) (rank : String → Nat)
    (h1 : normalizeNodes tree ≠ [])
    (h2 : ∀ n ∈ normalizeNodes tree, ∃ p, n.parent = some p ∧ p ≠ "")
    (h3 : ∀ n ∈ normalizeNodes tree, ∀ p, n.parent = some p → rank p < rank n.keyword)
    (h4 : ∀ n ∈ normalizeNodes tree, rank n.keyword ≤ (normalizeNodes tree).length) :
    build_paths_from_tree tree ≠ [] ∧
    (normalizeNodes tree).length ≤ (build_paths_from_tree tree).length := by
  have htree : tree ≠ [] := by
    intro h
    exact h1 (by rw [h]; rfl)
  have hroots0 : childrenOf (normalizeNodes tree) none ++
      childrenOf (normalizeNodes tree) (some "") = [] := by
    rw [childrenOf_eq_nil _ _ (fun n hn => by
          rcases h2 n hn with ⟨p, hp, _⟩
          rw [hp]; simp),
        childrenOf_eq_nil _ _ (fun n hn => by
          rcases h2 n hn with ⟨p, hp, hpne⟩
          rw [hp]; simpa using hpne)]
    rfl
  have hbuild : build_paths_from_tree tree =
      ((normalizeNodes tree).map (fun n => n.keyword)).flatMap
        (fun r => dfs (normalizeNodes tree) ((normalizeNodes tree).length + 1) r []
          (parentLookup (normalizeNodes tree) r)) := by
    unfold build_paths_from_tree
    rw [if_neg htree]
    simp only [if_neg h1, hroots0, if_pos rfl]
    simp
  have hdfs : ∀ r ∈ (normalizeNodes tree).map (fun n => n.keyword),
      dfs (normalizeNodes tree) ((normalizeNodes tree).length + 1) r []
        (parentLookup (normalizeNodes tree) r) ≠ [] := by
    intro r hr
    rcases List.mem_map.mp hr with ⟨n, hn, hk⟩
    have hrank : rank r ≤ (normalizeNodes tree).length := by
      rw [← hk]; exact h4 n hn
    exact dfs_ne_nil (normalizeNodes tree) rank ((normalizeNodes tree).length) h3 h4
      ((normalizeNodes tree).length + 1) r [] _ hrank (by omega)
  have hlen : (normalizeNodes tree).length ≤ (build_paths_from_tree tree).length := by
    rw [hbuild]
    have := length_le_flatMap ((normalizeNodes tree).map (fun n => n.keyword))
      (fun r => dfs (normalizeNodes tree) ((normalizeNodes tree).length + 1) r []
        (parentLookup (normalizeNodes tree) r)) hdfs
    simpa using this
  refine ⟨?_, hlen⟩
  intro hempty
  rw [hempty] at hlen
  simp at hlen
  exact h1 hlen

/-- Witness for C10: a single node whose parent names no other node. -/
theorem buildPaths_fallback_nonempty_witness :
    build_paths_from_tree exOrphanTree ≠ [] ∧
    (normalizeNodes exOrphanTree).length ≤ (build_paths_from_tree exOrphanTree).length :=
  buildPaths_fallback_nonempty exOrphanTree rankOrphan (by decide)
    (by
      intro n hn
      have : n = ⟨"A", some "B"⟩ := by
        have hns : normalizeNodes exOrphanTree = [⟨"A", some "B"⟩] := by decide
        rw [hns] at hn
        simpa using hn
      rw [this]
      exact ⟨"B", rfl, by decide⟩)
    (by
      intro n hn p hp
      have hn2 : n = ⟨"A", some "B"⟩ := by
        have hns : normalizeNodes exOrphanTree = [⟨"A", some "B"⟩] := by decide
        rw [hns] at hn
        simpa using hn
      rw [hn2] at hp
      have : p = "B" := by
        have := Option.some.inj hp
        exact this.symm
      rw [hn2, this]
      decide)
    (by
      intro n hn
      have hn2 : n = ⟨"A", some "B"⟩ := by
        have hns : normalizeNodes exOrphanTree = [⟨"A", some "B"⟩] := by decide
        rw [hns] at hn
        simpa using hn
      rw [hn2]
      decide)

theorem twoNode_strip_path (p c : String) (hps : pyStrip p = p) (hcs : pyStrip c = c)
    (hpne : p ≠ "") (hstart : strStarts (pyLower c) (pyLower p) = true)
    (htrim : lstripSet "_ ." (strDrop c (strLen p)) ≠ "") :
    build_paths_from_tree [⟨some p, none⟩, ⟨some c, some p⟩] =
      [p ++ " " ++ lstripSet "_ ." (strDrop c (strLen p))] := by
  have hdrop : strDrop c (strLen p) ≠ "" := by
    intro h
    apply htrim
    rw [h]
    decide
  have hlen : strLen p < strLen c := by
    by_contra hle
    push_neg at hle
    apply hdrop
    unfold strDrop
    rw [List.drop_eq_nil_of_le hle]
  have hcne : c ≠ "" := by
    intro h
    rw [h] at hlen
    have hz : strLen "" = 0 := by decide
    omega
  have hcp : c ≠ p := by
    intro h
    rw [h] at hlen
    omega
  have hpc : p ≠ c := fun h => hcp h.symm
  have f1 : normalizeNode ⟨some p, none⟩ = some ⟨p, none⟩ := by
    unfold normalizeNode
    simp only
    rw [hps, if_neg hpne]
  have f2 : normalizeNode ⟨some c, some p⟩ = some ⟨c, some p⟩ := by
    unfold normalizeNode
    simp only
    rw [hcs, if_neg hcne]
  have hns : normalizeNodes [⟨some p, none⟩, ⟨some c, some p⟩] =
      [⟨p, none⟩, ⟨c, some p⟩] := by
    unfold normalizeNodes
    rw [List.filterMap_cons, f1, List.filterMap_cons, f2, List.filterMap_nil]
  have hc2 : childrenOf [⟨p, none⟩, ⟨c, some p⟩] (some "") = [] := by
    simp [childrenOf, hpne]
  have hckids : childrenOf [⟨p, none⟩, ⟨c, some p⟩] (some p) = [c] := by
    simp [childrenOf]
  have hcleaf : childrenOf [⟨p, none⟩, ⟨c, some p⟩] (some c) = [] := by
    simp [childrenOf, hpc]
  have hbeq : (c == p) = false := beq_eq_false_iff_ne.mpr hcp
  have hparent : parentLookup [⟨p, none⟩, ⟨c, some p⟩] p = none := by
    simp [parentLookup, List.find?, hbeq]
  have hc0 : childrenOf [⟨p, none⟩, ⟨c, some p⟩] none = [p] := by
    simp [childrenOf]
  have hdisp : displayOf (some p) c = lstripSet "_ ." (strDrop c (strLen p)) := by
    simp only [displayOf]
    rw [if_pos ⟨hpne, hstart⟩, if_pos htrim]
  have hd2 : ∀ fuel : Nat, dfs [⟨p, none⟩, ⟨c, some p⟩] (fuel + 1) c [p] (some p) =
      [joinSp [p, lstripSet "_ ." (strDrop c (strLen p))]] := by
    intro fuel
    rw [show fuel + 1 = Nat.succ fuel from rfl]
    simp [dfs, hcleaf, hdisp]
  have hd3 : ∀ fuel : Nat, dfs [⟨p, none⟩, ⟨c, some p⟩] (fuel + 2) p [] none =
      [joinSp [p, lstripSet "_ ." (strDrop c (strLen p))]] := by
    intro fuel
    rw [show fuel + 2 = Nat.succ (fuel + 1) from rfl]
    have hdisp0 : displayOf none p = p := rfl
    simp [dfs, hckids, hdisp0, hd2 fuel]
    simp [hcleaf, hdisp]
  unfold build_paths_from_tree
  rw [if_neg (by simp : ¬([(⟨some p, none⟩ : RawNode), ⟨some c, some p⟩] = []))]
  simp only [hns]
  rw [if_neg (by simp : ¬([(⟨p, none⟩ : TreeNode), ⟨c, some p⟩] = []))]
  rw [hc0, hc2]
  simp only [List.append_nil]
  rw [if_neg (by simp : ¬([p] = []))]
  simp only [List.flatMap_cons, List.flatMap_nil, List.append_nil]
  rw [hparent]
  rw [show ([(⟨p, none⟩ : TreeNode), ⟨c, some p⟩] : List TreeNode).length + 1 = 1 + 2
    from rfl]
  rw [hd3 1]
  simp [joinSp]

/-- C8: the tree form of the path builder emits exactly one space-joined
phrase per root-to-leaf path and none for non-leaf nodes: the tree
[{Player,null},{Health,Player},{Attack,Player},{Power,Attack}] flattens
to exactly ["Player Health", "Player Attack Power"], AttackSpeed under
Attack contributes "Attack Speed"; and in general, for any two-node
tree whose child keyword's lowercase form starts with its non-empty
parent's lowercase form, the parent prefix and any immediately
following underscore, space or dot characters are stripped from the
child before it is appended, provided stripping leaves it non-empty -
while a child for which stripping would leave the empty string keeps
its original text, as the Attack/Attack_ instance shows. -/
theorem buildPaths_tree_flattening :
    build_paths_from_tree exPlayerTree = ["Player Health", "Player Attack Power"] ∧
    build_paths_from_tree exAttackTree = ["Attack Speed"] ∧
    build_paths_from_tree exAttackKeepTree = ["Attack Attack_"] ∧
    (∀ p c : String, pyStrip p = p → pyStrip c = c → p ≠ "" →
      strStarts (pyLower c) (pyLower p) = true →
      lstripSet "_ ." (strDrop c (strLen p)) ≠ "" →
      build_paths_from_tree [⟨some p, none⟩, ⟨some c, some p⟩] =
        [p ++ " " ++ lstripSet "_ ." (strDrop c (strLen p))]) := by
  refine ⟨by decide, by decide, by decide, ?_⟩
  intro p c hps hcs hpne hstart htrim
  exact twoNode_strip_path p c hps hcs hpne hstart htrim

/-- Witness for C8's general conjunct at parent `Attack`, child
`AttackSpeed`. -/
theorem buildPaths_tree_flattening_witness :
    pyStrip "Attack" = "Attack" ∧ pyStrip "AttackSpeed" = "AttackSpeed" ∧
    ("Attack" : String) ≠ "" ∧
    strStarts (pyLower "AttackSpeed") (pyLower "Attack") = true ∧
    lstripSet "_ ." (strDrop "AttackSpeed" (strLen "Attack")) ≠ "" ∧
    build_paths_from_tree [⟨some "Attack", none⟩, ⟨some "AttackSpeed", some "Attack"⟩] =
      ["Attack" ++ " " ++ lstripSet "_ ." (strDrop "AttackSpeed" (strLen "Attack"))] :=
  ⟨by decide, by decide, by decide, by decide, by decide,
    buildPaths_tree_flattening.2.2.2 "Attack" "AttackSpeed"
      (by decide) (by decide) (by decide) (by decide) (by decide)⟩
